import Mathlib

/-!
Verification of the emerging-trajectories fact store, content cache and
fact-citation resolution, as implemented in
`emergingtrajectories/factsrag3.py`, `emergingtrajectories/facts.py` and
`emergingtrajectories/chunkers.py`.

Strings are modelled as `List Char`; Python `datetime` values are modelled by
their epoch as `Int` (comparison of datetimes agrees with comparison of
epochs); a Python exception is an `Except`/`Option` error value.  File and
network side effects (json persistence, OpenAI embedding calls, the FAISS
index) are modelled explicitly where the claims depend on them and noted in
doc comments where they are not.
-/

/-- The whitespace characters removed by Python `str.strip()` / matched by
the regex class `\s` (ASCII range; the inputs reachable here are ASCII). -/
def isPySpace (c : Char) : Bool :=
  c = ' ' || c = '\t' || c = '\n' || c = '\r' || c = '\x0b' || c = '\x0c'

/-- Python `str.strip()`: drop whitespace from both ends. -/
def pyStrip (cs : List Char) : List Char :=
  ((cs.dropWhile isPySpace).reverse.dropWhile isPySpace).reverse

/-- Python `str.split(sep)` for a one-character separator: always returns at
least one piece, and empty pieces are kept (`"".split("\n") == [""]`). -/
def splitOnChar (sep : Char) : List Char → List (List Char)
  | [] => [[]]
  | c :: rest =>
    let r := splitOnChar sep rest
    if c = sep then [] :: r
    else
      match r with
      | [] => [[c]]
      | h :: t => (c :: h) :: t

/-- `chunkers.ChunkerNewLines`: holds the configurable minimum fact length,
defaulting to 7 characters as in `__init__`. -/
structure ChunkerNewLines where
  min_length : Nat := 7
deriving DecidableEq

/-- The accumulation loop of `ChunkerNewLines.chunk`: for each line, strip
it and keep it if its stripped length is at least `min_length`. -/
def chunkLines (ml : Nat) : List (List Char) → List (List Char)
  | [] => []
  | line :: rest =>
    let ls := pyStrip line
    if ml ≤ ls.length then ls :: chunkLines ml rest else chunkLines ml rest

/-- `chunkers.ChunkerNewLines.chunk`: split content on newlines and keep the
stripped lines of length at least `min_length` (the `topic` argument is
unused by this chunker). -/
def ChunkerNewLines.chunk (self : ChunkerNewLines) (content : List Char) :
    List (List Char) :=
  chunkLines self.min_length (splitOnChar '\n' content)

/-- Metadata stored for one fact by `FactRAGFileCache.add_facts`
(`factsrag3.py`): the epoch timestamp, the `datetime` value (modelled by its
epoch, written `date_time`), and the source URL. -/
structure FactMeta where
  added_on_timestamp : Int
  date_time : Int
  source : String
deriving DecidableEq

/-- `factsrag3.VectorDBDict`: parallel lists `original_texts` and `metadata`
with an autoincrementing index and no delete.  A metadata entry is `none`
for the empty dict `{}` that `add_vectors` fills in when no metadata is
given.  The FAISS `embeddings` index only serves similarity search; it is
modelled by the ranked index list passed to the query functions below. -/
structure VectorDB where
  original_texts : List String
  metadata : List (Option FactMeta)
deriving DecidableEq

/-- Python exceptions raised by the fact-store lookups. -/
inductive PyErr
  | indexErr (n : Nat)
  | valueErr
  | keyErr
deriving DecidableEq

/-- `VectorDBDict.count`. -/
def VectorDB.count (db : VectorDB) : Nat :=
  db.original_texts.length

/-- Python `range(a, b)` as a list. -/
def pyRange (a b : Nat) : List Nat :=
  List.range' a (b - a)

/-- `VectorDBDict.add_vectors` (the vectors themselves only feed the FAISS
index and are dropped here): append the texts and metadata, defaulting
missing metadata to empty dicts, and return the new IDs
`list(range(start_index, end_index))`. -/
def VectorDB.add_vectors (db : VectorDB) (texts : List String)
    (metadata : Option (List (Option FactMeta))) : VectorDB × List Nat :=
  let start_index := db.original_texts.length
  let md := metadata.getD (texts.map fun _ => none)
  let db2 : VectorDB :=
    { original_texts := db.original_texts ++ texts
      metadata := db.metadata ++ md }
  let end_index := db2.original_texts.length
  (db2, pyRange start_index end_index)

/-- `VectorDBDict.add_texts`: computes embeddings in batches of at most 100
(shortening each text to the token budget for the embedding call only) and
then calls `add_vectors` with the ORIGINAL texts; the embeddings are not
modelled, so this is `add_vectors`. -/
def VectorDB.add_texts (db : VectorDB) (texts : List String)
    (metadata : Option (List (Option FactMeta))) : VectorDB × List Nat :=
  db.add_vectors texts metadata

/-- `VectorDBDict.get`: index into both parallel lists; an out-of-range
index raises `IndexError`. -/
def VectorDB.get (db : VectorDB) (index : Nat) :
    Except PyErr (String × Option FactMeta) :=
  match db.original_texts[index]?, db.metadata[index]? with
  | some t, some m => .ok (t, m)
  | _, _ => .error (.indexErr index)

/-- Decimal value of a digit string, as computed by Python `int`. -/
def digitsVal (cs : List Char) : Nat :=
  cs.foldl (fun acc c => acc * 10 + (c.toNat - '0'.toNat)) 0

/-- Python `int(s)` restricted to the strings reachable from the citation
regex (digits, whitespace, `,`, `f`): surrounding whitespace is allowed,
anything but a nonempty digit string then raises `ValueError`. -/
def parsePyInt (cs : List Char) : Except PyErr Nat :=
  let t := pyStrip cs
  if !t.isEmpty && t.all Char.isDigit then .ok (digitsVal t)
  else .error .valueErr

/-- The fact-ID parsing shared by `get_fact_source` / `get_fact_content` /
`get_fact_details` (`factsrag3.py`): lower-case the ID, strip a leading
`f`, and parse the rest as an integer.  `f_str[0]` on the empty string
raises `IndexError`. -/
def factIdToIndex (fact_id : List Char) : Except PyErr Nat :=
  let f_str := fact_id.map Char.toLower
  match f_str with
  | [] => .error (.indexErr 0)
  | c :: rest => if c = 'f' then parsePyInt rest else parsePyInt (c :: rest)

/-- `FactRAGFileCache.get_fact_source`: resolve the ID to an index, fetch
text and metadata, and return `metadata["source"]` (a `KeyError` if the
metadata dict has no such key). -/
def get_fact_source (db : VectorDB) (fact_id : List Char) :
    Except PyErr String := do
  let n ← factIdToIndex fact_id
  let (_t, md) ← db.get n
  match md with
  | some m => .ok m.source
  | none => .error .keyErr

/-- `FactRAGFileCache.get_fact_content`: same lookup, returning the text. -/
def get_fact_content (db : VectorDB) (fact_id : List Char) :
    Except PyErr String := do
  let n ← factIdToIndex fact_id
  let (t, _md) ← db.get n
  .ok t

/-- The metadata-building loop of `FactRAGFileCache.add_facts`: the first
`k` sources, raising `IndexError` when `sources[i]` is out of range. -/
def takeSources (sources : List String) : Nat → Except PyErr (List String)
  | 0 => .ok []
  | k + 1 =>
    match sources with
    | [] => .error (.indexErr 0)
    | s :: rest => (takeSources rest k).map (s :: ·)

/-- `FactRAGFileCache.add_facts`: stamp every fact with the one `now`
(both as `added_on_timestamp` and as the `datetime` field), pair it with
its source, and append via `add_texts` (then persist, not modelled).  An
exception while building the metadata list is raised before anything is
appended, so the error carries the unchanged store. -/
def add_facts (db : VectorDB) (facts sources : List String) (now : Int) :
    Except (PyErr × VectorDB) (VectorDB × Bool) :=
  match takeSources sources facts.length with
  | .error e => .error (e, db)
  | .ok srcs =>
    let metadatas := srcs.map fun s =>
      some { added_on_timestamp := now, date_time := now, source := s }
    let (db2, _ids) := db.add_texts facts (some metadatas)
    .ok (db2, true)

/-- One `add_texts` call of a replayed sequence: the texts and their
metadata entries. -/
def runAddIds (db : VectorDB) :
    List (List String × List (Option FactMeta)) → VectorDB × List (List Nat)
  | [] => (db, [])
  | (texts, md) :: rest =>
    let (db1, ids) := db.add_texts texts (some md)
    let (dbF, idss) := runAddIds db1 rest
    (dbF, ids :: idss)

/-- The `datetime` metadata field read by `query_min_date`
(`self.db["metadata"][i][date_field]`); out-of-range access raises in
Python, so theorems below restrict to in-range ranked indices. -/
def metaDate (db : VectorDB) (i : Nat) : Int :=
  (((db.metadata[i]?).bind id).map (·.date_time)).getD 0

/-- The filtering loop of `VectorDBDict.query_min_date`: walk the ranked
indices most-similar-first, append those whose date is at least `min_date`,
and break as soon as `n` results are collected. -/
def queryMinDateLoop (db : VectorDB) (min_date : Int) (n : Nat)
    (acc : List Nat) : List Nat → List Nat
  | [] => acc
  | i :: rest =>
    let acc2 := if min_date ≤ metaDate db i then acc ++ [i] else acc
    if n ≤ acc2.length then acc2 else queryMinDateLoop db min_date n acc2 rest

/-- `VectorDBDict.query_min_date`: `sortedIdx` models
`self.query(text, self.count())`, the FAISS ranking of all stored vectors,
most similar first. -/
def query_min_date (db : VectorDB) (sortedIdx : List Nat) (min_date : Int)
    (n : Nat) : List Nat :=
  queryMinDateLoop db min_date n [] sortedIdx

/-- One entry of the content cache shared by
`facts.FactBaseFileCache` and `factsrag3.FactRAGFileCache` (their cache
code is identical): the dict written by `update_cache`. -/
structure CacheEntry where
  obtained_on : Int
  last_accessed : Int
  accessed : Nat
  uri_md5 : String
deriving DecidableEq

/-- The mutable state of a file cache instance: the `cache` dict (an
ordered association list keyed by URI, as Python dicts preserve insertion
order) and the two content blob folders keyed by the hashed URI.  The json
round-trip of `save_state`/`load_cache` is not modelled. -/
structure CacheState where
  cache : List (String × CacheEntry)
  original_files : List (String × String)
  parsed_files : List (String × String)
deriving DecidableEq

/-- First-match association lookup (Python dict read). -/
def alookup {α : Type} (k : String) : List (String × α) → Option α
  | [] => none
  | (k2, v) :: rest => if k2 = k then some v else alookup k rest

/-- Association update (Python dict write: replace in place if the key
exists, else append). -/
def aupdate {α : Type} (k : String) (v : α) :
    List (String × α) → List (String × α)
  | [] => [(k, v)]
  | (k2, v2) :: rest =>
    if k2 = k then (k, v) :: rest else (k2, v2) :: aupdate k v rest

/-- `in_cache` (identical in `facts.py` and `factsrag3.py`). -/
def in_cache (s : CacheState) (uri : String) : Bool :=
  (alookup uri s.cache).isSome

/-- `update_cache`: write a fresh entry for the URI with `accessed = 0`
(`md5` models `uri_to_local`, the MD5 hex digest of the URI). -/
def update_cache (md5 : String → String) (s : CacheState) (uri : String)
    (obtained_on last_accessed : Int) : CacheState :=
  let e : CacheEntry :=
    { obtained_on := obtained_on, last_accessed := last_accessed
      accessed := 0, uri_md5 := md5 uri }
  { s with cache := aupdate uri e s.cache }

/-- `log_access`: refresh `last_accessed` and set `accessed = 1`; a URI not
in the cache raises `KeyError` (`none`). -/
def log_access (s : CacheState) (uri : String) (now : Int) :
    Option CacheState :=
  match alookup uri s.cache with
  | none => none
  | some e =>
    let e2 : CacheEntry := { e with last_accessed := now, accessed := 1 }
    some { s with cache := aupdate uri e2 s.cache }

/-- `get_unaccessed_content`: the URIs whose entry has `accessed == 0`, in
cache order. -/
def get_unaccessed_content (s : CacheState) : List String :=
  (s.cache.filter fun p => p.2.accessed = 0).map (·.1)

/-- Write a blob into the `parsed` folder. -/
def writeParsed (s : CacheState) (key content : String) : CacheState :=
  { s with parsed_files := aupdate key content s.parsed_files }

/-- Write a blob into the `original` folder. -/
def writeOriginal (s : CacheState) (key content : String) : CacheState :=
  { s with original_files := aupdate key content s.original_files }

/-- Errors observable from the cache `get` operations: reading a missing
parsed file for a cached URI, or (in `facts.py` only) a crawler failure
propagating out. -/
inductive GetErr
  | fileMissing
  | crawlFailed
deriving DecidableEq

namespace FactRAGFileCache

/-- `factsrag3.FactRAGFileCache.get`: return the parsed file for a cached
URI; otherwise crawl — where a crawler exception is CAUGHT and turned into
empty content — write both blobs, cache the URI, and return the text.  The
crawler is `uri ↦ some (content, text)`, `none` when it raises; the third
component records whether the crawler was invoked. -/
def get (crawler : String → Option (String × String)) (md5 : String → String)
    (s : CacheState) (uri : String) (now : Int) :
    Except GetErr String × CacheState × Bool :=
  let uri_md5 := md5 uri
  match alookup uri s.cache with
  | some _ =>
    match alookup uri_md5 s.parsed_files with
    | some t => (.ok t, s, false)
    | none => (.error .fileMissing, s, false)
  | none =>
    let ct := (crawler uri).getD ("", "")
    let s1 := writeOriginal s uri_md5 ct.1
    let s2 := writeParsed s1 uri_md5 ct.2
    let s3 := update_cache md5 s2 uri now now
    (.ok ct.2, s3, true)

/-- `factsrag3.FactRAGFileCache.force_content`: skip when the URI is cached
and `check_exists` holds; otherwise write the content as both blobs, cache
the URI, and immediately `log_access` it (the entry exists at that point,
so the `KeyError` branch of `log_access` cannot fire). -/
def force_content (md5 : String → String) (s : CacheState)
    (uri content : String) (check_exists : Bool) (now : Int) :
    Option (Bool × CacheState) :=
  if check_exists && in_cache s uri then some (false, s)
  else
    let uri_md5 := md5 uri
    let s1 := writeOriginal s uri_md5 content
    let s2 := writeParsed s1 uri_md5 content
    let s3 := update_cache md5 s2 uri now now
    (log_access s3 uri now).map fun s4 => (true, s4)

/-- `factsrag3.FactRAGFileCache.add_content`: default the URI to the MD5 of
the content, write the parsed blob, and unconditionally `update_cache` —
overwriting any existing entry. -/
def add_content (md5 : String → String) (s : CacheState) (content : String)
    (uri? : Option String) (now : Int) : CacheState :=
  let uri := uri?.getD (md5 content)
  let uri_md5 := md5 uri
  let s1 := writeParsed s uri_md5 content
  update_cache md5 s1 uri now now

end FactRAGFileCache

namespace FactBaseFileCache

/-- `facts.FactBaseFileCache.get`: identical to the `factsrag3` version
except that there is NO try/except around the crawler call — a crawler
exception propagates to the caller before any blob or cache write. -/
def get (crawler : String → Option (String × String)) (md5 : String → String)
    (s : CacheState) (uri : String) (now : Int) :
    Except GetErr String × CacheState × Bool :=
  let uri_md5 := md5 uri
  match alookup uri s.cache with
  | some _ =>
    match alookup uri_md5 s.parsed_files with
    | some t => (.ok t, s, false)
    | none => (.error .fileMissing, s, false)
  | none =>
    match crawler uri with
    | none => (.error .crawlFailed, s, true)
    | some ct =>
      let s1 := writeOriginal s uri_md5 ct.1
      let s2 := writeParsed s1 uri_md5 ct.2
      let s3 := update_cache md5 s2 uri now now
      (.ok ct.2, s3, true)

/-- `facts.FactBaseFileCache.force_empty`: store explicit empty blobs and a
fresh cache entry for a URI, so a broken URL is not recrawled. -/
def force_empty (md5 : String → String) (s : CacheState) (uri : String)
    (now : Int) : CacheState :=
  let uri_md5 := md5 uri
  let s1 := writeOriginal s uri_md5 ""
  let s2 := writeParsed s1 uri_md5 ""
  update_cache md5 s2 uri now now

end FactBaseFileCache

/-- The character class `[\d\s\,f]` of the citation regex
`\[f[\d\s\,f]+\]` in `clean_fact_citations` (`factsrag3.py`). -/
def isCiteChar (c : Char) : Bool :=
  c.isDigit || isPySpace c || c = ',' || c = 'f'

/-- A piece of the scanned text: a literal character outside any regex
match, or the bracket-stripped group `match.group(0)[1:-1]` of one match
(which always starts with `f`). -/
inductive Seg
  | lit (c : Char)
  | cite (inner : List Char)
deriving DecidableEq

/-- `re.finditer(r"\[f[\d\s\,f]+\]", text)`: scan left to right; at `[f`
followed by a nonempty run of class characters and a closing `]`, emit the
match (the `+` is greedy and `]` is outside the class, so the run is the
maximal one) and continue after it, otherwise move on by one character.
The fuel argument (always at least the remaining length) makes the
recursion structural. -/
def scanGo : Nat → List Char → List Seg
  | 0, _ => []
  | _ + 1, [] => []
  | fuel + 1, c :: rest =>
    if c = '[' ∧ rest.head? = some 'f' then
      let rest2 := rest.tail
      let run := rest2.takeWhile isCiteChar
      let rest3 := rest2.dropWhile isCiteChar
      if run ≠ [] ∧ rest3.head? = some ']' then
        .cite ('f' :: run) :: scanGo fuel rest3.tail
      else
        .lit c :: scanGo fuel rest
    else
      .lit c :: scanGo fuel rest

/-- All regex matches of the citation pattern, with the text between and
around them kept as literal characters. -/
def scanCitations (cs : List Char) : List Seg :=
  scanGo cs.length cs

/-- Decimal digits of a counter value, as in Python `f"{ref_ctr}"`. -/
def natToChars (n : Nat) : List Char :=
  (Nat.repr n).data

/-- Python `", ".join(ref_arr)`. -/
def joinCommaSep : List (List Char) → List Char
  | [] => []
  | [x] => x
  | x :: y :: rest => x ++ (", ".data) ++ joinCommaSep (y :: rest)

/-- One end-note line `f"{ref_ctr} :: " + bot.source(ref) + "\n"`. -/
def sourceLine (ctr : Nat) (src : String) : List Char :=
  natToChars ctr ++ (" :: ".data) ++ src.data ++ ['\n']

/-- The per-reference loop of the comma branch of `clean_fact_citations`:
strip each piece, advance the counter, record the counter string and the
end-note line; a failing source lookup propagates. -/
def processRefs (db : VectorDB) :
    List (List Char) → Nat → Except PyErr (List (List Char) × List Char × Nat)
  | [], ctr => .ok ([], [], ctr)
  | r :: rs, ctr => do
    let ref := pyStrip r
    let src ← get_fact_source db ref
    let (arr, sl, ctrF) ← processRefs db rs (ctr + 1)
    .ok (natToChars (ctr + 1) :: arr, sourceLine (ctr + 1) src ++ sl, ctrF)

/-- Handling of one regex match by `clean_fact_citations`: a group without
a comma is a single reference replaced by `[{ref_ctr}]`; a group with
commas is split on commas and replaced by the joined counter values. -/
def processCite (db : VectorDB) (inner : List Char) (ctr : Nat) :
    Except PyErr (List Char × List Char × Nat) :=
  if inner.contains ',' then do
    let (arr, sl, ctrF) ← processRefs db (splitOnChar ',' inner) ctr
    .ok ('[' :: (joinCommaSep arr ++ [']']), sl, ctrF)
  else do
    let ref := pyStrip inner
    let src ← get_fact_source db ref
    .ok ('[' :: (natToChars (ctr + 1) ++ [']']), sourceLine (ctr + 1) src, ctr + 1)

/-- The match loop of `clean_fact_citations`: literal characters are copied
verbatim (the slices `text_to_clean[last_index:match.start()]` and the tail
slice), each match is handled by `processCite`, and the first exception
aborts the whole call. -/
def processSegs (db : VectorDB) :
    List Seg → Nat → Except PyErr (List Char × List Char × Nat)
  | [], ctr => .ok ([], [], ctr)
  | .lit c :: rest, ctr => do
    let (nt, sl, ctrF) ← processSegs db rest ctr
    .ok (c :: nt, sl, ctrF)
  | .cite inner :: rest, ctr => do
    let (rep, sl1, ctr1) ← processCite db inner ctr
    let (nt, sl, ctrF) ← processSegs db rest ctr1
    .ok (rep ++ nt, sl1 ++ sl, ctrF)

/-- `factsrag3.clean_fact_citations`: number the references in reading
order, replace each bracket group, and append the end-notes block unless no
reference was found.  (The `FactBot` constructed inside only forwards
`source` to `get_fact_source` on the same store.) -/
def clean_fact_citations (db : VectorDB) (text : List Char) :
    Except PyErr (List Char) := do
  let (nt, sl, ctr) ← processSegs db (scanCitations text) 0
  if ctr = 0 then .ok text
  else .ok (nt ++ ("\n\nSources:\n".data) ++ sl)

/-- The number of individual references (counting repeats and every member
of a multi-ID bracket) produced by a segment list. -/
def refCount : List Seg → Nat
  | [] => 0
  | .lit _ :: rest => refCount rest
  | .cite inner :: rest =>
    (if inner.contains ',' then (splitOnChar ',' inner).length else 1) +
      refCount rest

/-! ## Concrete fixtures used by witnesses and counterexamples -/

/-- A crawler that always succeeds with fixed content. -/
def crawlerConst : String → Option (String × String) :=
  fun _ => some ("page", "text")

/-- A crawler that always raises. -/
def crawlerFail : String → Option (String × String) :=
  fun _ => none

/-- An empty cache state (fresh folder). -/
def cs0 : CacheState :=
  { cache := [], original_files := [], parsed_files := [] }

/-- The state produced by a first `get` of `"u"` on `cs0` with
`crawlerConst` at time 5 (identity hashing). -/
def csA : CacheState :=
  { cache := [("u", { obtained_on := 5, last_accessed := 5, accessed := 0
                      uri_md5 := "u" })]
    original_files := [("u", "page")], parsed_files := [("u", "text")] }

/-- A cache entry that was fetched at time 5 and already accessed. -/
def entryOld : CacheEntry :=
  { obtained_on := 5, last_accessed := 5, accessed := 1, uri_md5 := "u" }

/-- A state whose single entry is `entryOld`. -/
def csAccessed : CacheState :=
  { cache := [("u", entryOld)], original_files := []
    parsed_files := [("u", "old")] }

/-- `csAccessed` after `log_access "u"` at time 9. -/
def csLogged : CacheState :=
  { cache := [("u", { obtained_on := 5, last_accessed := 9, accessed := 1
                      uri_md5 := "u" })]
    original_files := [], parsed_files := [("u", "old")] }

/-- An empty fact store. -/
def dbEmpty : VectorDB :=
  { original_texts := [], metadata := [] }

/-- A store with three facts; `f1` has source `sourceX` and `f2` has
source `sourceY`, matching the spec example for citation resolution. -/
def dbC1 : VectorDB :=
  { original_texts := ["fact zero", "fact one", "fact two"]
    metadata :=
      [some { added_on_timestamp := 0, date_time := 0, source := "sourceZ" },
       some { added_on_timestamp := 0, date_time := 0, source := "sourceX" },
       some { added_on_timestamp := 0, date_time := 0, source := "sourceY" }] }

/-- A store with three facts added at times 10, 20, 30. -/
def dbDates : VectorDB :=
  { original_texts := ["d10", "d20", "d30"]
    metadata :=
      [some { added_on_timestamp := 10, date_time := 10, source := "s0" },
       some { added_on_timestamp := 20, date_time := 20, source := "s1" },
       some { added_on_timestamp := 30, date_time := 30, source := "s2" }] }

/-! ## Helper lemmas -/

theorem chunkLines_eq_filter (ml : Nat) (lines : List (List Char)) :
    chunkLines ml lines =
      (lines.map pyStrip).filter (fun l => decide (ml ≤ l.length)) := by
  induction lines with
  | nil => rfl
  | cons line rest ih =>
    simp only [chunkLines, List.map_cons, List.filter_cons]
    by_cases h : ml ≤ (pyStrip line).length
    · simp [h, ih]
    · simp [h, ih]

theorem takeSources_short (sources : List String) (k : Nat)
    (h : sources.length < k) :
    takeSources sources k = .error (.indexErr 0) := by
  induction k generalizing sources with
  | zero => omega
  | succ k ih =>
    cases sources with
    | nil => rfl
    | cons s rest =>
      simp only [takeSources]
      rw [ih rest (by simpa using Nat.lt_of_succ_lt_succ h)]
      rfl

theorem takeSources_ok (k : Nat) (sources : List String)
    (h : k ≤ sources.length) :
    takeSources sources k = .ok (sources.take k) := by
  induction k generalizing sources with
  | zero => simp [takeSources]
  | succ k ih =>
    cases sources with
    | nil => simp at h
    | cons s rest =>
      simp only [takeSources, List.take]
      rw [ih rest (by simpa using Nat.le_of_succ_le_succ h)]
      rfl

theorem pyRange_append (a b c : Nat) (hab : a ≤ b) (hbc : b ≤ c) :
    pyRange a b ++ pyRange b c = pyRange a c := by
  unfold pyRange
  have hb : b = a + 1 * (b - a) := by omega
  have hn : c - a = c - b + (b - a) := by omega
  rw [hn, ← List.range'_append a (b - a) (c - b) 1, ← hb]

theorem runAddIds_spec (calls : List (List String × List (Option FactMeta)))
    (db : VectorDB) :
    ((runAddIds db calls).2).flatten =
        pyRange db.count (runAddIds db calls).1.count
      ∧ (runAddIds db calls).1.original_texts.take db.original_texts.length
          = db.original_texts
      ∧ (runAddIds db calls).1.metadata.take db.metadata.length = db.metadata
      ∧ db.count ≤ (runAddIds db calls).1.count := by
  induction calls generalizing db with
  | nil =>
    simp [runAddIds, pyRange, VectorDB.count]
  | cons call rest ih =>
    obtain ⟨texts, md⟩ := call
    have hrun : runAddIds db (⟨texts, md⟩ :: rest) =
        ((runAddIds (db.add_texts texts (some md)).1 rest).1,
          (db.add_texts texts (some md)).2 ::
            (runAddIds (db.add_texts texts (some md)).1 rest).2) := rfl
    set db1 := (db.add_texts texts (some md)).1 with hdb1
    have hdb1texts : db1.original_texts = db.original_texts ++ texts := rfl
    have hdb1md : db1.metadata = db.metadata ++ md := rfl
    have hids : (db.add_texts texts (some md)).2 =
        pyRange db.count db1.count := by
      simp only [VectorDB.add_texts, VectorDB.add_vectors, VectorDB.count]
      rw [hdb1texts]
    obtain ⟨ih1, ih2, ih3, ih4⟩ := ih db1
    have hcount1 : db.count ≤ db1.count := by
      simp only [VectorDB.count, hdb1texts, List.length_append]
      omega
    refine ⟨?_, ?_, ?_, ?_⟩
    · rw [hrun]
      simp only [List.flatten_cons, hids, ih1]
      exact pyRange_append _ _ _ hcount1 ih4
    · rw [hrun]
      have hlen : db.original_texts.length ≤ db1.original_texts.length := by
        rw [hdb1texts, List.length_append]; omega
      calc (runAddIds db1 rest).1.original_texts.take db.original_texts.length
          = ((runAddIds db1 rest).1.original_texts.take
              db1.original_texts.length).take db.original_texts.length := by
            rw [List.take_take, Nat.min_eq_left hlen]
        _ = db1.original_texts.take db.original_texts.length := by rw [ih2]
        _ = db.original_texts := by
            rw [hdb1texts, List.take_append_of_le_length (Nat.le_refl _),
              List.take_length]
    · rw [hrun]
      have hlen : db.metadata.length ≤ db1.metadata.length := by
        rw [hdb1md, List.length_append]; omega
      calc (runAddIds db1 rest).1.metadata.take db.metadata.length
          = ((runAddIds db1 rest).1.metadata.take
              db1.metadata.length).take db.metadata.length := by
            rw [List.take_take, Nat.min_eq_left hlen]
        _ = db1.metadata.take db.metadata.length := by rw [ih3]
        _ = db.metadata := by
            rw [hdb1md, List.take_append_of_le_length (Nat.le_refl _),
              List.take_length]
    · rw [hrun]
      exact Nat.le_trans hcount1 ih4

theorem alookup_aupdate_self {α : Type} (k : String) (v : α)
    (l : List (String × α)) : alookup k (aupdate k v l) = some v := by
  induction l with
  | nil => simp [alookup, aupdate]
  | cons p rest ih =>
    obtain ⟨k2, v2⟩ := p
    by_cases h : k2 = k
    · simp [aupdate, alookup, h]
    · simp [aupdate, alookup, h, ih]

theorem alookup_aupdate_other {α : Type} (k k2 : String) (v : α)
    (l : List (String × α)) (h : k2 ≠ k) :
    alookup k2 (aupdate k v l) = alookup k2 l := by
  have hk : ¬(k = k2) := fun he => h he.symm
  induction l with
  | nil => simp [alookup, aupdate, if_neg hk]
  | cons p rest ih =>
    obtain ⟨k3, v3⟩ := p
    by_cases h3 : k3 = k
    · subst h3
      simp only [aupdate, if_pos rfl, alookup, if_neg hk]
    · simp only [aupdate, if_neg h3, alookup]
      by_cases h4 : k3 = k2
      · simp [if_pos h4]
      · simp [if_neg h4, ih]

theorem self_mem_aupdate {α : Type} (k : String) (v : α)
    (l : List (String × α)) : (k, v) ∈ aupdate k v l := by
  induction l with
  | nil => simp [aupdate]
  | cons p rest ih =>
    obtain ⟨k2, v2⟩ := p
    by_cases h : k2 = k
    · simp [aupdate, h]
    · simp only [aupdate, if_neg h]
      exact List.mem_cons_of_mem _ ih

theorem mem_keys_aupdate {α : Type} (k k2 : String) (v : α)
    (l : List (String × α)) (h : k2 ∈ (aupdate k v l).map Prod.fst) :
    k2 = k ∨ k2 ∈ l.map Prod.fst := by
  induction l with
  | nil => simpa [aupdate] using h
  | cons p rest ih =>
    obtain ⟨k3, v3⟩ := p
    by_cases h3 : k3 = k
    · subst h3
      simpa [aupdate] using h
    · simp only [aupdate, if_neg h3, List.map_cons, List.mem_cons] at h
      rcases h with h | h
      · right; simp [h]
      · rcases ih h with h | h
        · exact Or.inl h
        · right; simp [List.mem_cons, h]

theorem nodup_keys_aupdate {α : Type} (k : String) (v : α)
    (l : List (String × α)) (h : (l.map Prod.fst).Nodup) :
    ((aupdate k v l).map Prod.fst).Nodup := by
  induction l with
  | nil => simp [aupdate]
  | cons p rest ih =>
    obtain ⟨k3, v3⟩ := p
    simp only [List.map_cons, List.nodup_cons] at h
    by_cases h3 : k3 = k
    · subst h3
      simpa [aupdate, List.nodup_cons] using h
    · simp only [aupdate, if_neg h3, List.map_cons, List.nodup_cons]
      refine ⟨fun hmem => ?_, ih h.2⟩
      rcases mem_keys_aupdate k k3 v rest hmem with he | he
      · exact h3 he
      · exact h.1 he

theorem mem_aupdate_key_eq {α : Type} (k : String) (v w : α)
    (l : List (String × α)) (hnd : (l.map Prod.fst).Nodup)
    (h : (k, w) ∈ aupdate k v l) : w = v := by
  induction l with
  | nil => simpa [aupdate] using h
  | cons p rest ih =>
    obtain ⟨k3, v3⟩ := p
    simp only [List.map_cons, List.nodup_cons] at hnd
    by_cases h3 : k3 = k
    · subst h3
      simp only [aupdate, if_pos rfl] at h
      cases h with
      | head => rfl
      | tail _ hm => exact absurd (List.mem_map_of_mem Prod.fst hm) hnd.1
    · simp only [aupdate, if_neg h3] at h
      cases h with
      | head => exact absurd rfl h3
      | tail _ hm => exact ih hnd.2 hm

theorem mem_unaccessed_iff (s : CacheState) (uri : String) :
    uri ∈ get_unaccessed_content s ↔
      ∃ e, (uri, e) ∈ s.cache ∧ e.accessed = 0 := by
  unfold get_unaccessed_content
  constructor
  · intro h
    rcases List.mem_map.mp h with ⟨⟨u, e⟩, hmem, hu⟩
    rcases List.mem_filter.mp hmem with ⟨hin, hacc⟩
    cases hu
    exact ⟨e, hin, by simpa using hacc⟩
  · rintro ⟨e, hin, hacc⟩
    exact List.mem_map.mpr ⟨(uri, e),
      List.mem_filter.mpr ⟨hin, by simpa using hacc⟩, rfl⟩

/-! ## Claim theorems -/

/-- C5: for every URI, calling `get` twice invokes the crawler at most once
(the second call never crawls, and the first crawls exactly when the URI
was uncached), the second call returns text identical to the first call's
result (and leaves the state unchanged), and `in_cache` is true after the
first call. -/
theorem C5_get_idempotent (crawler : String → Option (String × String))
    (md5 : String → String) (s : CacheState) (uri : String) (now1 now2 : Int)
    (t : String) (s1 : CacheState) (c1 : Bool)
    (h : FactRAGFileCache.get crawler md5 s uri now1 = (.ok t, s1, c1)) :
    FactRAGFileCache.get crawler md5 s1 uri now2 = (.ok t, s1, false)
      ∧ in_cache s1 uri = true
      ∧ c1 = !(in_cache s uri) := by
  cases halo : alookup uri s.cache with
  | some e =>
    cases hp : alookup (md5 uri) s.parsed_files with
    | some t0 =>
      simp only [FactRAGFileCache.get, halo, hp, Prod.mk.injEq,
        Except.ok.injEq] at h
      obtain ⟨ht, hs, hc⟩ := h
      subst ht; subst hs; subst hc
      refine ⟨?_, ?_, ?_⟩
      · simp only [FactRAGFileCache.get, halo, hp]
      · simp [in_cache, halo]
      · simp [in_cache, halo]
    | none =>
      simp only [FactRAGFileCache.get, halo, hp, Prod.mk.injEq] at h
      exact absurd h.1 (by simp)
  | none =>
    simp only [FactRAGFileCache.get, halo, Prod.mk.injEq,
      Except.ok.injEq] at h
    obtain ⟨ht, hs, hc⟩ := h
    subst ht; subst hc
    constructor
    · simp only [FactRAGFileCache.get, ← hs, update_cache, writeParsed,
        writeOriginal, alookup_aupdate_self]
    · constructor
      · simp [in_cache, ← hs, update_cache, writeParsed, writeOriginal,
          alookup_aupdate_self]
      · simp [in_cache, halo]

/-- C5 witness: a concrete run of the theorem on an empty cache with a
successful crawler. -/
theorem C5_get_idempotent_witness :
    FactRAGFileCache.get crawlerConst id csA "u" 9 = (.ok "text", csA, false)
      ∧ in_cache csA "u" = true
      ∧ true = !(in_cache cs0 "u") :=
  C5_get_idempotent crawlerConst id cs0 "u" 5 9 "text" csA true rfl

/-- C6 counterexample: on the claim's own scenario — an uncached URI whose
crawler raises — `FactRAGFileCache.get` (factsrag3.py, the function the
claim cites) does NOT propagate an error: it catches the exception, caches
an entry with empty content, and returns the empty string normally. -/
theorem C6_counterexample :
    FactRAGFileCache.get crawlerFail id cs0 "u" 7 =
      (.ok "", { cache := [("u", { obtained_on := 7, last_accessed := 7
                                   accessed := 0, uri_md5 := "u" })]
                 original_files := [("u", "")]
                 parsed_files := [("u", "")] }, true)
      ∧ in_cache (FactRAGFileCache.get crawlerFail id cs0 "u" 7).2.1 "u"
          = true := by
  constructor
  · rfl
  · rfl

/-- C6 (amended): in `facts.FactBaseFileCache.get` a crawler failure on an
uncached URI propagates to the caller with no entry cached and the state
unchanged, and the caller can store an explicit empty entry with
`force_empty`; the `factsrag3.FactRAGFileCache.get` variant instead
catches the failure and caches empty content. -/
theorem C6_factbase_get_propagates
    (crawler : String → Option (String × String)) (md5 : String → String)
    (s : CacheState) (uri : String) (now : Int)
    (h1 : in_cache s uri = false) (h2 : crawler uri = none) :
    FactBaseFileCache.get crawler md5 s uri now = (.error .crawlFailed, s, true)
      ∧ in_cache (FactBaseFileCache.force_empty md5 s uri now) uri = true := by
  have halo : alookup uri s.cache = none := by
    cases halo2 : alookup uri s.cache with
    | none => rfl
    | some e => exact absurd h1 (by simp [in_cache, halo2])
  constructor
  · simp only [FactBaseFileCache.get, halo, h2]
  · simp [in_cache, FactBaseFileCache.force_empty, update_cache, writeParsed,
      writeOriginal, alookup_aupdate_self]

/-- C6 witness: the amended theorem applied to an empty cache with a
failing crawler. -/
theorem C6_factbase_get_propagates_witness :
    FactBaseFileCache.get crawlerFail id cs0 "u" 7 =
      (.error .crawlFailed, cs0, true)
      ∧ in_cache (FactBaseFileCache.force_empty id cs0 "u" 7) "u" = true :=
  C6_factbase_get_propagates crawlerFail id cs0 "u" 7 (by decide) rfl

/-- C8 counterexample: `add_content` on a URI that is already cached (and
already accessed) overwrites the whole entry via `update_cache`: the new
entry has a new `obtained_on` and `accessed` reset to 0, refuting the
claim that no later operation overwrites `obtained_on` or resets
`accessed`. -/
theorem C8_counterexample :
    alookup "u" (FactRAGFileCache.add_content id csAccessed "c" (some "u")
        9).cache =
      some { obtained_on := 9, last_accessed := 9, accessed := 0
             uri_md5 := "u" }
      ∧ alookup "u" csAccessed.cache = some entryOld
      ∧ entryOld.obtained_on = 5 ∧ entryOld.accessed = 1
      ∧ (9 : Int) ≠ 5 := by
  refine ⟨by decide, by decide, by decide, by decide, by decide⟩

/-- C8 (amended): `log_access` — the access-logging mutation — is the only
entry mutation that preserves the claim: it keeps `obtained_on` and
`uri_md5`, sets `accessed` to 1 (never back to 0), only refreshes
`last_accessed`, and touches no other entry and no content blob.  However
`add_content` (and `force_content` with `check_exists=False`) on an
existing URI rebuild the entry via `update_cache`, overwriting
`obtained_on` and resetting `accessed` to 0. -/
theorem C8_log_access_frame (s : CacheState) (uri : String) (now : Int)
    (s2 : CacheState) (h : log_access s uri now = some s2) :
    ∃ e, alookup uri s.cache = some e
      ∧ alookup uri s2.cache =
          some { obtained_on := e.obtained_on, last_accessed := now
                 accessed := 1, uri_md5 := e.uri_md5 }
      ∧ (∀ u, u ≠ uri → alookup u s2.cache = alookup u s.cache)
      ∧ s2.parsed_files = s.parsed_files
      ∧ s2.original_files = s.original_files := by
  cases halo : alookup uri s.cache with
  | none => simp [log_access, halo] at h
  | some e =>
    simp only [log_access, halo, Option.some.injEq] at h
    refine ⟨e, rfl, ?_, ?_, ?_, ?_⟩
    · rw [← h]
      exact alookup_aupdate_self _ _ _
    · intro u hu
      rw [← h]
      exact alookup_aupdate_other _ _ _ _ hu
    · rw [← h]
    · rw [← h]

/-- C8 witness: the amended theorem applied to a concrete accessed entry. -/
theorem C8_log_access_frame_witness :
    ∃ e, alookup "u" csAccessed.cache = some e
      ∧ alookup "u" csLogged.cache =
          some { obtained_on := e.obtained_on, last_accessed := 9
                 accessed := 1, uri_md5 := e.uri_md5 }
      ∧ (∀ u, u ≠ "u" →
          alookup u csLogged.cache = alookup u csAccessed.cache)
      ∧ csLogged.parsed_files = csAccessed.parsed_files
      ∧ csLogged.original_files = csAccessed.original_files :=
  C8_log_access_frame csAccessed "u" 9 csLogged rfl

/-- C10: after a successful `force_content(uri, content)` on an uncached
URI the new entry is immediately marked accessed (`force_content` ends by
calling `log_access`), so the URI does not appear in a subsequent
`get_unaccessed_content()`; an entry created by `get` instead starts with
`accessed = 0` and does appear in that list. -/
theorem C10_force_content_logs_access
    (crawler : String → Option (String × String)) (md5 : String → String)
    (s : CacheState) (uri content : String) (now : Int)
    (hnd : (s.cache.map Prod.fst).Nodup)
    (h : in_cache s uri = false) :
    (∃ s1, FactRAGFileCache.force_content md5 s uri content true now =
        some (true, s1)
      ∧ uri ∉ get_unaccessed_content s1
      ∧ in_cache s1 uri = true)
    ∧ uri ∈ get_unaccessed_content
        (FactRAGFileCache.get crawler md5 s uri now).2.1 := by
  have halo : alookup uri s.cache = none := by
    cases halo2 : alookup uri s.cache with
    | none => rfl
    | some e => exact absurd h (by simp [in_cache, halo2])
  constructor
  · have hcond : (true && in_cache s uri) = false := by simp [h]
    simp only [FactRAGFileCache.force_content, hcond, Bool.false_eq_true,
      if_false, update_cache, writeParsed, writeOriginal, log_access,
      alookup_aupdate_self, Option.map_some]
    refine ⟨_, rfl, ?_, ?_⟩
    · rw [mem_unaccessed_iff]
      rintro ⟨e2, hmem, hacc⟩
      have hnd2 : ((aupdate uri
          { obtained_on := now, last_accessed := now, accessed := 0
            uri_md5 := md5 uri } s.cache).map Prod.fst).Nodup :=
        nodup_keys_aupdate _ _ _ hnd
      have he2 := mem_aupdate_key_eq _ _ _ _ hnd2 hmem
      rw [he2] at hacc
      simp at hacc
    · simp [in_cache, alookup_aupdate_self]
  · simp only [FactRAGFileCache.get, halo, update_cache, writeParsed,
      writeOriginal]
    rw [mem_unaccessed_iff]
    exact ⟨_, self_mem_aupdate _ _ _, rfl⟩

/-- C10 witness: the theorem applied to an empty cache. -/
theorem C10_force_content_logs_access_witness :
    (∃ s1, FactRAGFileCache.force_content id cs0 "u" "body" true 5 =
        some (true, s1)
      ∧ "u" ∉ get_unaccessed_content s1
      ∧ in_cache s1 "u" = true)
    ∧ "u" ∈ get_unaccessed_content
        (FactRAGFileCache.get crawlerConst id cs0 "u" 5).2.1 :=
  C10_force_content_logs_access crawlerConst id cs0 "u" "body" 5
    (by simp [cs0]) rfl

/-- C9: the line chunker returns exactly the stripped lines of the content
whose stripped length is at least `min_length`, verbatim and in order
(hence a line of exactly `min_length` characters after stripping passes
the filter and one character shorter does not); empty content yields an
empty list with the default `min_length` of 7; being a total function, the
chunker never raises. -/
theorem C9_chunker_filter :
    (∀ (self : ChunkerNewLines) (content : List Char),
      self.chunk content =
        ((splitOnChar '\n' content).map pyStrip).filter
          (fun l => decide (self.min_length ≤ l.length)))
    ∧ ChunkerNewLines.chunk {} [] = []
    ∧ ({} : ChunkerNewLines).min_length = 7 :=
  ⟨fun self content =>
    chunkLines_eq_filter self.min_length (splitOnChar '\n' content),
    rfl, rfl⟩

/-- C3 counterexample: `add_facts` with MORE sources than facts does not
fail at all — it succeeds, appends the fact, and silently ignores the
extra source — refuting the claim that every length mismatch fails. -/
theorem C3_counterexample :
    add_facts dbEmpty ["a"] ["s1", "s2"] 0 =
      .ok ({ original_texts := ["a"]
             metadata := [some { added_on_timestamp := 0, date_time := 0
                                 source := "s1" }] }, true)
      ∧ (["a"] : List String).length ≠ (["s1", "s2"] : List String).length :=
  ⟨rfl, by decide⟩

/-- C3 (amended): `add_facts` fails — with an `IndexError` from
`sources[i]`, not a `ValidationError` — exactly when `sources` is SHORTER
than `facts`, and the failure happens before anything is appended (the
store is unchanged); when `sources` is at least as long as `facts` the
call succeeds, appending the facts paired with the first
`len(facts)` sources and ignoring any extras. -/
theorem C3_add_facts_mismatch (db : VectorDB) (facts sources : List String)
    (now : Int) :
    (sources.length < facts.length →
      add_facts db facts sources now = .error (.indexErr 0, db))
    ∧ (facts.length ≤ sources.length →
      add_facts db facts sources now =
        .ok ({ original_texts := db.original_texts ++ facts
               metadata := db.metadata ++ (sources.take facts.length).map
                 (fun s => some { added_on_timestamp := now
                                  date_time := now, source := s }) },
          true)) := by
  constructor
  · intro hlt
    unfold add_facts
    rw [takeSources_short sources facts.length hlt]
  · intro hle
    unfold add_facts
    rw [takeSources_ok facts.length sources hle]
    rfl

/-- C3 witness: both branches of the amended theorem at concrete inputs. -/
theorem C3_add_facts_mismatch_witness :
    ((["s1"] : List String).length < (["a", "b"] : List String).length
      ∧ add_facts dbEmpty ["a", "b"] ["s1"] 0 = .error (.indexErr 0, dbEmpty))
    ∧ add_facts dbEmpty ["a"] ["s1", "s2"] 3 =
        .ok ({ original_texts := [] ++ ["a"]
               metadata := [] ++ ((["s1", "s2"].take
                   (["a"] : List String).length).map
                 (fun s => some { added_on_timestamp := 3
                                  date_time := 3, source := s })) },
          true) :=
  ⟨⟨by decide, (C3_add_facts_mismatch dbEmpty ["a", "b"] ["s1"] 0).1
      (by decide)⟩,
    (C3_add_facts_mismatch dbEmpty ["a"] ["s1", "s2"] 3).2 (by decide)⟩

/-- C7: over any sequence of `add_texts`/`add_vectors` calls, the IDs
assigned are exactly the consecutive integers continuing from the store's
prior fact count (so every new ID exceeds all previously assigned IDs and
no ID is ever reassigned), and the pre-existing texts and metadata remain
unchanged at their indices — the store is append-only with no update or
delete. -/
theorem C7_append_only_ids (db : VectorDB)
    (calls : List (List String × List (Option FactMeta))) :
    ((runAddIds db calls).2).flatten =
        pyRange db.count (runAddIds db calls).1.count
      ∧ (runAddIds db calls).1.original_texts.take db.original_texts.length
          = db.original_texts
      ∧ (runAddIds db calls).1.metadata.take db.metadata.length = db.metadata
      ∧ db.count ≤ (runAddIds db calls).1.count :=
  runAddIds_spec calls db

/-- C4 counterexample: a fact whose `datetime` equals `min_date` IS
returned by `query_min_date` (the code compares with `>=`), refuting the
claim that a fact added exactly at the boundary timestamp is excluded. -/
theorem C4_counterexample :
    query_min_date dbDates [0, 1, 2] 10 10 = [0, 1, 2]
      ∧ metaDate dbDates 0 = 10
      ∧ ¬((10 : Int) > 10) :=
  ⟨rfl, rfl, by decide⟩

theorem queryMinDateLoop_spec (db : VectorDB) (min_date : Int) (n : Nat)
    (idx : List Nat) :
    ∀ acc : List Nat, acc.length < n →
    queryMinDateLoop db min_date n acc idx =
      acc ++ (idx.filter
        (fun i => decide (min_date ≤ metaDate db i))).take (n - acc.length) := by
  induction idx with
  | nil => intro acc hacc; simp [queryMinDateLoop]
  | cons i rest ih =>
    intro acc hacc
    by_cases hp : min_date ≤ metaDate db i
    · by_cases hn2 : n ≤ acc.length + 1
      · have htake : n - acc.length = 1 := by omega
        simp only [queryMinDateLoop, if_pos hp]
        rw [if_pos (by simp only [List.length_append, List.length_cons,
          List.length_nil]; omega)]
        simp [List.filter_cons, hp, htake]
      · have hlen : (acc ++ [i]).length < n := by
          simp only [List.length_append, List.length_cons, List.length_nil]
          omega
        have htake : n - acc.length = (n - (acc.length + 1)) + 1 := by omega
        simp only [queryMinDateLoop, if_pos hp]
        rw [if_neg (by simp only [List.length_append, List.length_cons,
          List.length_nil]; omega)]
        rw [ih (acc ++ [i]) hlen]
        simp [List.filter_cons, hp, htake, List.append_assoc]
    · have hn3 : ¬(n ≤ acc.length) := by omega
      simp only [queryMinDateLoop, if_neg hp]
      rw [if_neg hn3, ih acc hacc]
      simp [List.filter_cons, hp]

/-- C4 (amended): for `n ≥ 1`, `query_min_date` returns the first `n`
ranked indices whose `datetime` is at least `min_date` — i.e. the top `n`
by similarity among the facts passing the filter, with the boundary
INCLUDED (`added == since_date` passes, because the code filters with
`>=`); the claim's strict `>` only holds for the chroma-based
`factsrag2.query_to_fact_list`, not for this code path. -/
theorem C4_query_min_date_filter (db : VectorDB) (sortedIdx : List Nat)
    (min_date : Int) (n : Nat) (hn : 1 ≤ n) :
    query_min_date db sortedIdx min_date n =
      (sortedIdx.filter
        (fun i => decide (min_date ≤ metaDate db i))).take n := by
  unfold query_min_date
  rw [queryMinDateLoop_spec db min_date n sortedIdx [] (by simpa using hn)]
  simp

/-- C4 witness: the amended theorem with a ranked list and `n = 1`. -/
theorem C4_query_min_date_filter_witness :
    (1 : Nat) ≤ 1
      ∧ query_min_date dbDates [2, 0, 1] 15 1 =
          ([2, 0, 1].filter
            (fun i => decide ((15 : Int) ≤ metaDate dbDates i))).take 1 :=
  ⟨by decide, C4_query_min_date_filter dbDates [2, 0, 1] 15 1 (by decide)⟩

theorem dropWhile_all_not {p : Char → Bool} (l : List Char)
    (h : ∀ c ∈ l, p c = false) : l.dropWhile p = l := by
  cases l with
  | nil => rfl
  | cons c rest =>
    exact List.dropWhile_cons_of_neg (by simp [h c (List.mem_cons_self c rest)])

theorem pyStrip_no_space (cs : List Char)
    (h : ∀ c ∈ cs, isPySpace c = false) : pyStrip cs = cs := by
  unfold pyStrip
  rw [dropWhile_all_not cs h,
    dropWhile_all_not cs.reverse (fun c hc => h c (List.mem_reverse.mp hc)),
    List.reverse_reverse]

theorem takeWhile_append_stop {p : Char → Bool} (ds : List Char) (y : Char)
    (post : List Char) (hall : ∀ c ∈ ds, p c = true) (hy : p y = false) :
    (ds ++ y :: post).takeWhile p = ds := by
  induction ds with
  | nil => simp [List.takeWhile_cons, hy]
  | cons d dtl ih =>
    rw [List.cons_append,
      List.takeWhile_cons_of_pos (hall d (List.mem_cons_self d dtl)),
      ih (fun c hc => hall c (List.mem_cons_of_mem d hc))]

theorem dropWhile_append_stop {p : Char → Bool} (ds : List Char) (y : Char)
    (post : List Char) (hall : ∀ c ∈ ds, p c = true) (hy : p y = false) :
    (ds ++ y :: post).dropWhile p = y :: post := by
  induction ds with
  | nil => simp [List.dropWhile_cons, hy]
  | cons d dtl ih =>
    rw [List.cons_append,
      List.dropWhile_cons_of_pos (hall d (List.mem_cons_self d dtl)),
      ih (fun c hc => hall c (List.mem_cons_of_mem d hc))]

theorem dropWhile_append_split {p : Char → Bool} (xs ys : List Char) :
    (xs ++ ys).dropWhile p = xs.dropWhile p ++ ys
      ∨ (xs.dropWhile p = [] ∧ (xs ++ ys).dropWhile p = ys.dropWhile p) := by
  induction xs with
  | nil => right; exact ⟨rfl, rfl⟩
  | cons x xtl ih =>
    by_cases hx : p x = true
    · rw [List.cons_append, List.dropWhile_cons_of_pos hx,
        List.dropWhile_cons_of_pos hx]
      exact ih
    · left
      rw [List.cons_append, List.dropWhile_cons_of_neg (by simpa using hx),
        List.dropWhile_cons_of_neg (by simpa using hx), List.cons_append]

theorem length_dropWhile_le {p : Char → Bool} (l : List Char) :
    (l.dropWhile p).length ≤ l.length := by
  induction l with
  | nil => simp
  | cons x xtl ih =>
    by_cases hx : p x = true
    · rw [List.dropWhile_cons_of_pos hx]
      exact Nat.le_trans ih (by simp)
    · rw [List.dropWhile_cons_of_neg (by simpa using hx)]

theorem digit_toNat_le (c : Char) (h : c.isDigit = true) : c.toNat ≤ 57 := by
  simp only [Char.isDigit, Bool.and_eq_true, decide_eq_true_eq] at h
  exact h.2

theorem isPySpace_eq_false_of_digit (c : Char) (h : c.isDigit = true) :
    isPySpace c = false := by
  cases hsp : isPySpace c
  · rfl
  · exfalso
    simp only [isPySpace, Bool.or_eq_true, decide_eq_true_eq] at hsp
    rcases hsp with ((((rfl | rfl) | rfl) | rfl) | rfl) | rfl <;> simp at h

theorem toLower_digit (c : Char) (h : c.isDigit = true) : c.toLower = c := by
  have hle := digit_toNat_le c h
  unfold Char.toLower
  rw [if_neg (by omega)]

theorem map_toLower_digits (ds : List Char)
    (h : ∀ c ∈ ds, c.isDigit = true) :
    ('f' :: ds).map Char.toLower = 'f' :: ds := by
  simp only [List.map_cons, List.cons.injEq]
  refine ⟨by decide, ?_⟩
  induction ds with
  | nil => rfl
  | cons d dtl ih =>
    simp only [List.map_cons, List.cons.injEq]
    exact ⟨toLower_digit d (h d (List.mem_cons_self d dtl)),
      ih (fun c hc => h c (List.mem_cons_of_mem d hc))⟩

theorem pyStrip_digits_cons (ds : List Char)
    (h : ∀ c ∈ ds, c.isDigit = true) : pyStrip ('f' :: ds) = 'f' :: ds := by
  refine pyStrip_no_space _ (fun c hc => ?_)
  rcases List.mem_cons.mp hc with rfl | hm
  · decide
  · exact isPySpace_eq_false_of_digit c (h c hm)

theorem parsePyInt_digits (ds : List Char) (h1 : ds ≠ [])
    (h2 : ∀ c ∈ ds, c.isDigit = true) :
    parsePyInt ds = .ok (digitsVal ds) := by
  have hstrip : pyStrip ds = ds :=
    pyStrip_no_space _ (fun c hc => isPySpace_eq_false_of_digit c (h2 c hc))
  have hempty : ds.isEmpty = false := by
    cases ds with
    | nil => exact absurd rfl h1
    | cons a b => rfl
  have hall : ds.all Char.isDigit = true := List.all_eq_true.mpr h2
  unfold parsePyInt
  rw [hstrip]
  simp [hempty, hall]

theorem factIdToIndex_digits (ds : List Char) (h1 : ds ≠ [])
    (h2 : ∀ c ∈ ds, c.isDigit = true) :
    factIdToIndex ('f' :: ds) = .ok (digitsVal ds) := by
  unfold factIdToIndex
  rw [map_toLower_digits ds h2]
  simp only [if_pos rfl]
  exact parsePyInt_digits ds h1 h2

theorem get_fact_source_missing (db : VectorDB) (ds : List Char)
    (h1 : ds ≠ []) (h2 : ∀ c ∈ ds, c.isDigit = true)
    (hge : db.original_texts.length ≤ digitsVal ds) :
    get_fact_source db ('f' :: ds) = .error (.indexErr (digitsVal ds)) := by
  have hget : db.get (digitsVal ds) = .error (.indexErr (digitsVal ds)) := by
    unfold VectorDB.get
    rw [List.getElem?_eq_none hge]
  unfold get_fact_source
  rw [factIdToIndex_digits ds h1 h2]
  simp only [bind, Except.bind, hget]

theorem contains_comma_false (ds : List Char)
    (h : ∀ c ∈ ds, c.isDigit = true) :
    ('f' :: ds).contains ',' = false := by
  have hmem : ',' ∉ 'f' :: ds := by
    intro hm
    rcases List.mem_cons.mp hm with he | hm2
    · exact absurd he (by decide)
    · exact absurd (h ',' hm2) (by decide)
  simp only [List.contains, List.elem_eq_mem]
  simpa using hmem

theorem processCite_unknown (db : VectorDB) (ds : List Char)
    (h1 : ds ≠ []) (h2 : ∀ c ∈ ds, c.isDigit = true)
    (hge : db.original_texts.length ≤ digitsVal ds) (ctr : Nat) :
    processCite db ('f' :: ds) ctr = .error (.indexErr (digitsVal ds)) := by
  unfold processCite
  rw [contains_comma_false ds h2]
  simp only [Bool.false_eq_true, if_false]
  rw [pyStrip_digits_cons ds h2, get_fact_source_missing db ds h1 h2 hge]
  rfl

theorem processSegs_error (db : VectorDB) (segs : List Seg)
    (inner : List Char) (hmem : Seg.cite inner ∈ segs)
    (hfail : ∀ ctr, ∃ e, processCite db inner ctr = .error e) :
    ∀ ctr, ∃ e, processSegs db segs ctr = .error e := by
  induction segs with
  | nil => cases hmem
  | cons sg rest ih =>
    intro ctr
    cases sg with
    | lit c =>
      have hm2 : Seg.cite inner ∈ rest := by
        rcases List.mem_cons.mp hmem with he | hm2
        · cases he
        · exact hm2
      obtain ⟨e, he⟩ := ih hm2 ctr
      refine ⟨e, ?_⟩
      simp only [processSegs, he, bind, Except.bind]
    | cite inner2 =>
      cases hc : processCite db inner2 ctr with
      | error e =>
        refine ⟨e, ?_⟩
        simp only [processSegs, hc, bind, Except.bind]
      | ok out =>
        rcases List.mem_cons.mp hmem with he | hm2
        · obtain ⟨e, herr⟩ := hfail ctr
          rw [Seg.cite.injEq] at he
          rw [← he] at hc
          rw [herr] at hc
          cases hc
        · obtain ⟨out1, out2, out3⟩ := out
          obtain ⟨e, he⟩ := ih hm2 out3
          refine ⟨e, ?_⟩
          simp only [processSegs, hc, bind, Except.bind, he]

theorem processRefs_ctr (db : VectorDB) (refs : List (List Char)) :
    ∀ ctr out, processRefs db refs ctr = .ok out →
      out.2.2 = ctr + refs.length := by
  induction refs with
  | nil =>
    intro ctr out h
    simp only [processRefs, Except.ok.injEq] at h
    rw [← h]
    rfl
  | cons r rs ih =>
    intro ctr out h
    simp only [processRefs, bind, Except.bind] at h
    cases hsrc : get_fact_source db (pyStrip r) with
    | error e => rw [hsrc] at h; cases h
    | ok src =>
      rw [hsrc] at h
      cases hrec : processRefs db rs (ctr + 1) with
      | error e => rw [hrec] at h; cases h
      | ok out2 =>
        rw [hrec] at h
        obtain ⟨a2, s2, c2⟩ := out2
        simp only [Except.ok.injEq] at h
        rw [← h]
        have := ih (ctr + 1) (a2, s2, c2) hrec
        simp only at this
        simp only [this, List.length_cons]
        omega

theorem processCite_ctr (db : VectorDB) (inner : List Char) :
    ∀ ctr out, processCite db inner ctr = .ok out →
      out.2.2 = ctr +
        (if inner.contains ',' then (splitOnChar ',' inner).length else 1) := by
  intro ctr out h
  unfold processCite at h
  by_cases hcomma : inner.contains ',' = true
  · rw [if_pos hcomma] at h
    rw [if_pos hcomma]
    simp only [bind, Except.bind] at h
    cases hrefs : processRefs db (splitOnChar ',' inner) ctr with
    | error e => rw [hrefs] at h; cases h
    | ok out2 =>
      rw [hrefs] at h
      obtain ⟨a2, s2, c2⟩ := out2
      simp only [Except.ok.injEq] at h
      rw [← h]
      exact processRefs_ctr db (splitOnChar ',' inner) ctr (a2, s2, c2) hrefs
  · rw [if_neg hcomma] at h
    rw [if_neg hcomma]
    simp only [bind, Except.bind] at h
    cases hsrc : get_fact_source db (pyStrip inner) with
    | error e => rw [hsrc] at h; cases h
    | ok src =>
      rw [hsrc] at h
      simp only [Except.ok.injEq] at h
      rw [← h]

theorem processSegs_ctr (db : VectorDB) (segs : List Seg) :
    ∀ ctr out, processSegs db segs ctr = .ok out →
      out.2.2 = ctr + refCount segs := by
  induction segs with
  | nil =>
    intro ctr out h
    simp only [processSegs, Except.ok.injEq] at h
    rw [← h]
    rfl
  | cons sg rest ih =>
    intro ctr out h
    cases sg with
    | lit c =>
      simp only [processSegs, bind, Except.bind] at h
      cases hrec : processSegs db rest ctr with
      | error e => rw [hrec] at h; cases h
      | ok out2 =>
        rw [hrec] at h
        obtain ⟨a2, s2, c2⟩ := out2
        simp only [Except.ok.injEq] at h
        rw [← h]
        have := ih ctr (a2, s2, c2) hrec
        simpa [refCount] using this
    | cite inner =>
      simp only [processSegs, bind, Except.bind] at h
      cases hc : processCite db inner ctr with
      | error e => rw [hc] at h; cases h
      | ok out1 =>
        rw [hc] at h
        obtain ⟨r1, s1, c1⟩ := out1
        simp only at h
        cases hrec : processSegs db rest c1 with
        | error e => rw [hrec] at h; cases h
        | ok out2 =>
          rw [hrec] at h
          obtain ⟨a2, s2, c2⟩ := out2
          simp only [Except.ok.injEq] at h
          rw [← h]
          have hh1 := processCite_ctr db inner ctr (r1, s1, c1) hc
          have hh2 := ih c1 (a2, s2, c2) hrec
          simp only at hh1 hh2
          simp only [hh2, hh1, refCount]
          omega

theorem scan_reaches (ds post : List Char) (h1 : ds ≠ [])
    (hclass : ∀ c ∈ ds, isCiteChar c = true) :
    ∀ fuel (pre : List Char),
      (pre ++ '[' :: 'f' :: (ds ++ ']' :: post)).length ≤ fuel →
      Seg.cite ('f' :: ds) ∈
        scanGo fuel (pre ++ '[' :: 'f' :: (ds ++ ']' :: post)) := by
  intro fuel
  induction fuel with
  | zero =>
    intro pre hlen
    exfalso
    simp [List.length_append] at hlen
  | succ fuel ih =>
    intro pre hlen
    cases pre with
    | nil =>
      simp only [List.nil_append, scanGo, List.head?_cons, List.tail_cons,
        List.append_eq]
      split
      · rw [takeWhile_append_stop ds ']' post hclass (by decide),
          dropWhile_append_stop ds ']' post hclass (by decide)]
        rw [if_pos ⟨h1, rfl⟩]
        exact List.mem_cons_self _ _
      · next hcond => exact absurd (by simp) hcond
    | cons p pre2 =>
      have hlen2 : (pre2 ++ '[' :: 'f' :: (ds ++ ']' :: post)).length ≤ fuel := by
        simp only [List.cons_append, List.length_cons] at hlen
        omega
      simp only [List.cons_append, scanGo, List.append_eq]
      by_cases hc : p = '[' ∧
          (pre2 ++ '[' :: 'f' :: (ds ++ ']' :: post)).head? = some 'f'
      · rw [if_pos hc]
        obtain ⟨hp, hhead⟩ := hc
        cases pre2 with
        | nil => simp at hhead
        | cons q pre3 =>
          simp only [List.cons_append, List.head?_cons,
            Option.some.injEq] at hhead
          subst hhead
          simp only [List.cons_append, List.tail_cons]
          by_cases hr :
              (pre3 ++ '[' :: 'f' :: (ds ++ ']' :: post)).takeWhile isCiteChar
                  ≠ []
                ∧ ((pre3 ++ '[' :: 'f' :: (ds ++ ']' :: post)).dropWhile
                    isCiteChar).head? = some ']'
          · rw [if_pos hr]
            obtain ⟨hrun, hhead3⟩ := hr
            rcases dropWhile_append_split (p := isCiteChar) pre3
                ('[' :: 'f' :: (ds ++ ']' :: post)) with hsplit | hsplit
            · cases hdw : pre3.dropWhile isCiteChar with
              | nil =>
                rw [hdw, List.nil_append] at hsplit
                rw [hsplit] at hhead3
                simp at hhead3
              | cons d dtl =>
                rw [hdw] at hsplit
                rw [hsplit] at hhead3
                simp only [List.cons_append, List.head?_cons,
                  Option.some.injEq] at hhead3
                subst hhead3
                rw [hsplit]
                simp only [List.cons_append, List.tail_cons]
                refine List.mem_cons_of_mem _ (ih dtl ?_)
                have hdl := length_dropWhile_le (p := isCiteChar) pre3
                rw [hdw] at hdl
                simp only [List.cons_append, List.length_cons,
                  List.length_append] at hlen hdl ⊢
                omega
            · obtain ⟨hnil, heq⟩ := hsplit
              rw [heq, List.dropWhile_cons_of_neg (by decide)] at hhead3
              simp at hhead3
          · rw [if_neg hr]
            refine List.mem_cons_of_mem _ ?_
            have hlen3 :
                (('f' :: pre3) ++ '[' :: 'f' :: (ds ++ ']' :: post)).length
                  ≤ fuel := by
              simp only [List.cons_append, List.length_cons] at hlen ⊢
              omega
            have hmem := ih ('f' :: pre3) hlen3
            simpa [List.cons_append] using hmem
      · rw [if_neg hc]
        exact List.mem_cons_of_mem _ (ih pre2 hlen2)

theorem clean_error (db : VectorDB) (text : List Char)
    (h : ∃ e, processSegs db (scanCitations text) 0 = .error e) :
    ∃ e, clean_fact_citations db text = .error e := by
  obtain ⟨e, he⟩ := h
  refine ⟨e, ?_⟩
  unfold clean_fact_citations
  simp only [he, bind, Except.bind]

/-- C2: a citation `[fN]` whose fact ID is not in the store makes
`clean_fact_citations` fail — the lookup raises (an `IndexError`, the
not-found error of the list-backed store) and the exception propagates to
the caller, so no partially-resolved text is returned and no reference is
silently skipped; in particular resolving `"[f999]"` against an empty
store fails with the index error for 999. -/
theorem C2_unknown_fact_id_fails (db : VectorDB) (pre post ds : List Char)
    (h1 : ds ≠ []) (h2 : ∀ c ∈ ds, c.isDigit = true)
    (hge : db.original_texts.length ≤ digitsVal ds) :
    (∃ e, clean_fact_citations db
        (pre ++ '[' :: 'f' :: (ds ++ ']' :: post)) = .error e)
      ∧ clean_fact_citations dbEmpty ("[f999]".data) =
          .error (.indexErr 999) := by
  constructor
  · apply clean_error
    have hclass : ∀ c ∈ ds, isCiteChar c = true := fun c hc => by
      simp [isCiteChar, h2 c hc]
    have hmem := scan_reaches ds post h1 hclass
      (pre ++ '[' :: 'f' :: (ds ++ ']' :: post)).length pre (Nat.le_refl _)
    refine processSegs_error db _ ('f' :: ds) ?_
      (fun ctr => ⟨_, processCite_unknown db ds h1 h2 hge ctr⟩) 0
    unfold scanCitations
    exact hmem
  · rfl

/-- C2 witness: the theorem applied to an unknown ID 999 embedded in
running text, against an empty store. -/
theorem C2_unknown_fact_id_fails_witness :
    (∃ e, clean_fact_citations dbEmpty
        ("x ".data ++ '[' :: 'f' :: (['9', '9', '9'] ++ ']' :: " y".data)) =
          .error e)
      ∧ clean_fact_citations dbEmpty ("[f999]".data) =
          .error (.indexErr 999) :=
  C2_unknown_fact_id_fails dbEmpty ("x ".data) (" y".data) ['9', '9', '9']
    (by decide) (by decide) (by decide)

/-- C1 counterexample: on the spec's own example — with `f1 -> sourceX`
and `f2 -> sourceY` — `clean_fact_citations` does NOT reuse the display
number of the repeated fact `f1`: the output is
`claim A [1]. claim B [2, 3].` with THREE end-note lines (sourceX listed
twice), not the claimed `claim A [1]. claim B [1, 2].` with each source
listed once. -/
theorem C1_counterexample :
    clean_fact_citations dbC1 ("claim A [f1]. claim B [f1, f2].".data) =
      .ok (("claim A [1]. claim B [2, 3].\n\nSources:\n" ++
        "1 :: sourceX\n2 :: sourceX\n3 :: sourceY\n").data)
    ∧ ("claim A [1]. claim B [2, 3].\n\nSources:\n" ++
        "1 :: sourceX\n2 :: sourceX\n3 :: sourceY\n").data ≠
      ("claim A [1]. claim B [1, 2].\n\nSources:\n" ++
        "1 :: sourceX\n2 :: sourceY\n").data :=
  ⟨rfl, by decide⟩

/-- C1 (amended): `clean_fact_citations` numbers citation references PER
OCCURRENCE, not per distinct fact ID: the counter advances exactly once
for every individual reference — each member of a multi-ID bracket and
each repeat of an already-cited fact ID included — and every occurrence
contributes its own end-note line; the spec example therefore resolves to
`claim A [1]. claim B [2, 3].` with end-notes `1 :: sourceX`,
`2 :: sourceX`, `3 :: sourceY`. -/
theorem C1_per_occurrence_numbering :
    (∀ (db : VectorDB) (segs : List Seg) (ctr : Nat)
        (out : List Char × List Char × Nat),
      processSegs db segs ctr = .ok out → out.2.2 = ctr + refCount segs)
    ∧ clean_fact_citations dbC1 ("claim A [f1]. claim B [f1, f2].".data) =
        .ok (("claim A [1]. claim B [2, 3].\n\nSources:\n" ++
          "1 :: sourceX\n2 :: sourceX\n3 :: sourceY\n").data) :=
  ⟨fun db segs ctr out h => processSegs_ctr db segs ctr out h, rfl⟩

/-- C1 witness: the counting half of the amended theorem applied to a
concrete one-citation segment list. -/
theorem C1_per_occurrence_numbering_witness :
    processSegs dbC1 [Seg.cite ['f', '1']] 0 =
      .ok ("[1]".data, "1 :: sourceX\n".data, 1)
    ∧ (("[1]".data, "1 :: sourceX\n".data, 1) :
        List Char × List Char × Nat).2.2 =
      0 + refCount [Seg.cite ['f', '1']] :=
  ⟨rfl, C1_per_occurrence_numbering.1 dbC1 [Seg.cite ['f', '1']] 0
    ("[1]".data, "1 :: sourceX\n".data, 1) rfl⟩
